import Mathlib

/-!
Shallow embedding of `src/show_cleaning.py`, a pandas script that loads a
table of TV shows (columns `title`, `year`, `episodes`), cleans it
(`dropna` on `episodes`, `drop_duplicates` on `title` keeping the first,
`sort_values` by `["year","title"]` ascending, `reset_index`,
`astype(int)` on `episodes`), computes aggregates (`nunique` of titles,
`sum` of episodes, `groupby("year").size()`), and renders a chart whose
x-ticks are `np.arange(min(years), max(years)+1, 5)`.

Rows are modelled as records; the `episodes` cell before conversion may be
missing (pandas NaN), a numeric value (modelled as a rational, covering the
float values pandas reads), or a string (object dtype).  Fallible steps
(`astype(int)`, `min`/`max` of an empty list) return `Except`.

String comparison in pandas `sort_values` is lexicographic by code point;
it is modelled by a structurally recursive boolean comparison on the
character list of the string, proved equivalent (`strLe_iff`) to Lean's
lexicographic `≤` on `String`.  Sorting is modelled by insertion sort, a
correct comparison sort; the keys `(year, title)` that reach the sort are
pairwise distinct (titles were deduplicated), so any correct sort of them
produces the same list that pandas `sort_values` does.
-/

namespace ShowCleaning

/-- A value of the `episodes` column as loaded: missing (pandas NaN),
numeric (pandas float, modelled as a rational), or a string (object
dtype). -/
inductive EpCell where
  | na : EpCell
  | num : ℚ → EpCell
  | str : String → EpCell
deriving DecidableEq, Repr

/-- A row of the loaded dataframe `shows`: the three columns the script
uses. -/
structure RawRow where
  title : String
  year : Int
  episodes : EpCell
deriving DecidableEq, Repr

/-- A row after `astype(int)` on `episodes`: the episode count is an
integer. -/
structure Row where
  title : String
  year : Int
  episodes : Int
deriving DecidableEq, Repr

/-- Whether an `episodes` cell is missing (pandas `isna`). -/
def isNA : EpCell → Bool
  | .na => true
  | _ => false

/-- Step 2 of the script: `shows.dropna(subset=["episodes"])` — remove rows
whose `episodes` value is missing. -/
def clean_shows (shows : List RawRow) : List RawRow :=
  shows.filter (fun r => !isNA r.episodes)

/-- Helper for `drop_duplicates(subset=["title"], keep="first")`: walk the
rows in order, keeping a row only when its title has not been seen. -/
def dropDupAux (seen : List String) : List RawRow → List RawRow
  | [] => []
  | r :: rs =>
    if r.title ∈ seen then dropDupAux seen rs
    else r :: dropDupAux (r.title :: seen) rs

/-- Step 3 of the script:
`clean_shows.drop_duplicates(subset=["title"], keep="first")`. -/
def removed_duplicates (l : List RawRow) : List RawRow :=
  dropDupAux [] l

/-- Lexicographic-by-code-point `≤` on character lists, the order pandas
uses to compare the `title` strings. -/
def charsLe : List Char → List Char → Bool
  | [], _ => true
  | _ :: _, [] => false
  | a :: as, b :: bs =>
    if a < b then true
    else if b < a then false
    else charsLe as bs

/-- Lexicographic-by-code-point `≤` on strings (pandas string comparison),
computed on the underlying character lists. -/
def strLe (a b : String) : Bool :=
  charsLe a.data b.data

/-- The boolean comparison used by
`sort_values(by=["year","title"], ascending=[True,True])`:
lexicographic on the key `(year, title)`. -/
def rawLe (a b : RawRow) : Bool :=
  decide (a.year < b.year) || (a.year == b.year && strLe a.title b.title)

/-- Step 4 of the script: `sort_values(by=["year","title"])`, modelled as a
comparison sort with comparison `rawLe`.
Step 5, `reset_index(drop=True)`, is index bookkeeping only: on a list of
rows it is the identity and is not represented. -/
def sorted_shows (l : List RawRow) : List RawRow :=
  l.insertionSort (fun a b => rawLe a b = true)

/-- Parse an unsigned run of decimal digits (the digit part of a Python
integer literal); `none` when a non-digit appears. -/
def parseDigits (acc : Nat) : List Char → Option Nat
  | [] => some acc
  | c :: cs =>
    if c.isDigit then parseDigits (acc * 10 + (c.toNat - 48)) cs
    else none

/-- Python's `int(s)` on a string: an optional sign followed by at least
one decimal digit; anything else raises `ValueError` (modelled as `none`).
Python also tolerates surrounding whitespace and interior underscores;
those inessential allowances are not modelled. -/
def parseInt : String → Option Int
  | s =>
    match s.data with
    | [] => none
    | c :: cs =>
      if c = '-' then
        match cs with
        | [] => none
        | _ => (parseDigits 0 cs).map (fun n => -(n : Int))
      else if c = '+' then
        match cs with
        | [] => none
        | _ => (parseDigits 0 cs).map (fun n => (n : Int))
      else (parseDigits 0 (c :: cs)).map (fun n => (n : Int))

/-- Conversion of one `episodes` cell by `astype(int)`: floats are
truncated toward zero, strings are parsed as integer literals (raising on
a non-numeric literal), and a missing value cannot be converted. -/
def cellToInt : EpCell → Except String Int
  | .na => .error "Cannot convert non-finite values (NA or inf) to integer"
  | .num q => .ok (q.num.tdiv q.den)
  | .str s =>
    match parseInt s with
    | some n => .ok n
    | none => .error ("invalid literal for int() with base 10: " ++ s)

/-- Step 6 of the script: `sorted_shows["episodes"].astype(int)`, applied
to every row; a failing cell raises. -/
def convertEpisodes : List RawRow → Except String (List Row)
  | [] => .ok []
  | r :: rs =>
    match cellToInt r.episodes with
    | .error e => .error e
    | .ok n =>
      match convertEpisodes rs with
      | .error e => .error e
      | .ok rest => .ok (⟨r.title, r.year, n⟩ :: rest)

/-- The whole cleaning pipeline, steps 2–6 of the script. -/
def cleanPipeline (shows : List RawRow) : Except String (List Row) :=
  convertEpisodes (sorted_shows (removed_duplicates (clean_shows shows)))

/-- Step 7 of the script: `sorted_shows["title"].nunique()` — the number of
distinct titles in the cleaned data. -/
def total_shows_overall (l : List Row) : Nat :=
  (l.map (·.title)).dedup.length

/-- Step 7 of the script: `sorted_shows["episodes"].sum()`. -/
def total_episodes_overall (l : List Row) : Int :=
  (l.map (·.episodes)).sum

/-- Step 8 of the script:
`sorted_shows.groupby("year").size().reset_index(name="shows")` — one
`(year, count)` pair per distinct year, keys in ascending order. -/
def num (l : List Row) : List (Int × Nat) :=
  (((l.map (·.year)).dedup).insertionSort (· ≤ ·)).map
    (fun y => (y, l.countP (fun r => r.year == y)))

/-- Step 9 of the script: `num["year"].tolist()`. -/
def years (l : List Row) : List Int :=
  (num l).map Prod.fst

/-- Step 9 of the script: `num["shows"].tolist()`. -/
def counts (l : List Row) : List Nat :=
  (num l).map Prod.snd

/-- Python's `min` on a list: raises `ValueError` on an empty sequence. -/
def listMin (l : List Int) : Except String Int :=
  match l with
  | [] => .error "min() arg is an empty sequence"
  | y :: ys => .ok (ys.foldl min y)

/-- Python's `max` on a list: raises `ValueError` on an empty sequence. -/
def listMax (l : List Int) : Except String Int :=
  match l with
  | [] => .error "max() arg is an empty sequence"
  | y :: ys => .ok (ys.foldl max y)

/-- Model of `np.arange(start, stop, step)` for a positive step: the
values `start + i*step` strictly below `stop`, of which there are
`max 0 (ceil ((stop - start) / step))`. -/
def arange (start stop step : Int) : List Int :=
  (List.range (((stop - start + step - 1).tdiv step).toNat)).map
    (fun i => start + step * (i : Int))

/-- Step 15 of the script: the tick positions
`np.arange(min(years), max(years)+1, 5)` — unguarded, so it raises when
`years` is empty. -/
def xticks (ys : List Int) : Except String (List Int) := do
  let lo ← listMin ys
  let hi ← listMax ys
  pure (arange lo (hi + 1) 5)

/-- Re-inject a converted row into the raw-row type, as happens when the
pipeline's own output is fed back to it. -/
def rowToRaw (r : Row) : RawRow :=
  ⟨r.title, r.year, .num (r.episodes : ℚ)⟩

/-- The example input of the spec's §8:
`[("Show A",2020,10),("Show B",2019,None),("Show A",2020,10),("Show C",2019,5.0)]`. -/
def exInput : List RawRow :=
  [⟨"Show A", 2020, .num 10⟩, ⟨"Show B", 2019, .na⟩,
   ⟨"Show A", 2020, .num 10⟩, ⟨"Show C", 2019, .num 5⟩]

/-! ### The boolean comparisons agree with the lexicographic orders -/

theorem charsLe_iff (as bs : List Char) :
    charsLe as bs = true ↔ ¬ List.Lex (· < ·) bs as := by
  induction as generalizing bs with
  | nil =>
    cases bs with
    | nil =>
      simp only [charsLe, true_iff]
      exact fun h => nomatch h
    | cons b bs =>
      simp only [charsLe, true_iff]
      exact fun h => nomatch h
  | cons a as ih =>
    cases bs with
    | nil =>
      simp only [charsLe, Bool.false_eq_true, false_iff, not_not]
      exact List.Lex.nil
    | cons b bs =>
      simp only [charsLe]
      by_cases hab : a < b
      · simp only [if_pos hab, true_iff]
        intro h
        cases h with
        | rel h' => exact lt_asymm hab h'
        | cons h' => exact lt_irrefl a hab
      · by_cases hba : b < a
        · simp only [if_neg hab, if_pos hba, Bool.false_eq_true, false_iff, not_not]
          exact List.Lex.rel hba
        · have hb : a = b := le_antisymm (not_lt.mp hba) (not_lt.mp hab)
          subst hb
          simp only [if_neg hab, if_neg hba, ih bs]
          constructor
          · intro h hlt
            cases hlt with
            | rel h' => exact hab h'
            | cons h' => exact h h'
          · intro h hlt
            exact h (List.Lex.cons hlt)

theorem strLe_iff (a b : String) : strLe a b = true ↔ a ≤ b := by
  rw [String.le_iff_toList_le, ← not_lt]
  exact charsLe_iff a.data b.data

theorem rawLe_iff (a b : RawRow) :
    rawLe a b = true ↔ (a.year < b.year ∨ (a.year = b.year ∧ a.title ≤ b.title)) := by
  simp [rawLe, strLe_iff]

/-- `rawLe` only depends on the `(year, title)` key of a row. -/
theorem rawLe_congr {a b : RawRow} {a' b' : RawRow}
    (ha1 : a.year = a'.year) (ha2 : a.title = a'.title)
    (hb1 : b.year = b'.year) (hb2 : b.title = b'.title) :
    rawLe a b = rawLe a' b' := by
  simp [rawLe, strLe, ha1, ha2, hb1, hb2]

instance : IsTotal RawRow (fun a b => rawLe a b = true) := by
  constructor
  intro a b
  simp only [rawLe_iff]
  rcases lt_trichotomy a.year b.year with h | h | h
  · exact Or.inl (Or.inl h)
  · rcases le_total a.title b.title with ht | ht
    · exact Or.inl (Or.inr ⟨h, ht⟩)
    · exact Or.inr (Or.inr ⟨h.symm, ht⟩)
  · exact Or.inr (Or.inl h)

instance : IsTrans RawRow (fun a b => rawLe a b = true) := by
  constructor
  intro a b c
  simp only [rawLe_iff]
  rintro (h1 | ⟨h1, h1'⟩) (h2 | ⟨h2, h2'⟩)
  · exact Or.inl (h1.trans h2)
  · exact Or.inl (h2 ▸ h1)
  · exact Or.inl (h1 ▸ h2)
  · exact Or.inr ⟨h1.trans h2, h1'.trans h2'⟩

/-! ### Properties of duplicate removal -/

theorem dropDupAux_sublist (seen : List String) (l : List RawRow) :
    (dropDupAux seen l).Sublist l := by
  induction l generalizing seen with
  | nil => simp [dropDupAux]
  | cons r rs ih =>
    simp only [dropDupAux]
    by_cases h : r.title ∈ seen
    · rw [if_pos h]
      exact (ih seen).cons r
    · rw [if_neg h]
      exact (ih _).cons₂ r

theorem mem_dropDupAux {r : RawRow} :
    ∀ (seen : List String) (l : List RawRow), r ∈ dropDupAux seen l →
      r.title ∉ seen ∧ l.find? (fun x => x.title == r.title) = some r := by
  intro seen l
  induction l generalizing seen with
  | nil => intro h; cases h
  | cons x xs ih =>
    intro h
    simp only [dropDupAux] at h
    by_cases hx : x.title ∈ seen
    · rw [if_pos hx] at h
      obtain ⟨hns, hfind⟩ := ih seen h
      have hne : (x.title == r.title) = false := by
        simp only [beq_eq_false_iff_ne, ne_eq]
        intro he
        exact hns (he ▸ hx)
      refine ⟨hns, ?_⟩
      rw [List.find?_cons, hne]
      exact hfind
    · rw [if_neg hx] at h
      rcases List.mem_cons.mp h with rfl | h'
      · refine ⟨hx, ?_⟩
        rw [List.find?_cons]
        simp
      · obtain ⟨hns, hfind⟩ := ih (x.title :: seen) h'
        have hne1 : r.title ≠ x.title := by
          intro he
          exact hns (by simp [he])
        have hns' : r.title ∉ seen := fun hc => hns (List.mem_cons_of_mem _ hc)
        refine ⟨hns', ?_⟩
        rw [List.find?_cons]
        have hne : (x.title == r.title) = false := by
          simp only [beq_eq_false_iff_ne, ne_eq]
          exact fun he => hne1 he.symm
        rw [hne]
        exact hfind

theorem dropDupAux_titles_nodup (seen : List String) (l : List RawRow) :
    (dropDupAux seen l).Pairwise (fun a b => a.title ≠ b.title) := by
  induction l generalizing seen with
  | nil => simp [dropDupAux]
  | cons x xs ih =>
    simp only [dropDupAux]
    by_cases hx : x.title ∈ seen
    · rw [if_pos hx]
      exact ih seen
    · rw [if_neg hx]
      refine List.Pairwise.cons ?_ (ih _)
      intro b hb
      have := (mem_dropDupAux _ _ hb).1
      intro he
      exact this (by simp [← he])

theorem dropDupAux_eq_self (seen : List String) (l : List RawRow)
    (h1 : l.Pairwise (fun a b => a.title ≠ b.title))
    (h2 : ∀ r ∈ l, r.title ∉ seen) :
    dropDupAux seen l = l := by
  induction l generalizing seen with
  | nil => rfl
  | cons x xs ih =>
    have hx : x.title ∉ seen := h2 x (List.mem_cons_self _ _)
    simp only [dropDupAux, if_neg hx]
    congr 1
    refine ih _ h1.of_cons ?_
    intro r hr
    simp only [List.mem_cons, not_or]
    refine ⟨?_, h2 r (List.mem_cons_of_mem _ hr)⟩
    intro he
    exact (List.pairwise_cons.mp h1).1 r hr he.symm

/-! ### Properties of the integer conversion -/

/-- The pointwise relation between a raw row and its converted row. -/
def convRel (r : RawRow) (r' : Row) : Prop :=
  r'.title = r.title ∧ r'.year = r.year ∧ cellToInt r.episodes = .ok r'.episodes

theorem convert_ok_forall₂ : ∀ {s : List RawRow} {out : List Row},
    convertEpisodes s = .ok out → List.Forall₂ convRel s out := by
  intro s
  induction s with
  | nil =>
    intro out h
    simp only [convertEpisodes] at h
    injection h with h
    subst h
    exact List.Forall₂.nil
  | cons r rs ih =>
    intro out h
    simp only [convertEpisodes] at h
    cases hc : cellToInt r.episodes with
    | error e => simp [hc] at h
    | ok n =>
      rw [hc] at h
      cases hrest : convertEpisodes rs with
      | error e => simp [hrest] at h
      | ok rest =>
        rw [hrest] at h
        injection h with h
        subst h
        exact List.Forall₂.cons ⟨rfl, rfl, hc⟩ (ih hrest)

theorem convert_error_of_mem {r : RawRow} {e : String} {s : List RawRow} (hm : r ∈ s)
    (he : cellToInt r.episodes = .error e) :
    ∃ e', convertEpisodes s = .error e' := by
  induction s with
  | nil => cases hm
  | cons x xs ih =>
    cases hc : cellToInt x.episodes with
    | error e' => exact ⟨e', by simp [convertEpisodes, hc]⟩
    | ok n =>
      rcases List.mem_cons.mp hm with rfl | hm'
      · rw [hc] at he
        exact Except.noConfusion he
      · obtain ⟨e', h'⟩ := ih hm'
        exact ⟨e', by simp [convertEpisodes, hc, h']⟩

theorem forall₂_keys {s : List RawRow} {out : List Row} (h : List.Forall₂ convRel s out) :
    out.map (fun r => (r.year, r.title)) = s.map (fun r => (r.year, r.title)) := by
  induction h with
  | nil => rfl
  | cons hh ht ih =>
    obtain ⟨h1, h2, _⟩ := hh
    simp only [List.map_cons, ih, h1, h2]

theorem forall₂_titles {s : List RawRow} {out : List Row} (h : List.Forall₂ convRel s out) :
    out.map (·.title) = s.map (·.title) := by
  induction h with
  | nil => rfl
  | cons hh ht ih =>
    obtain ⟨h1, _, _⟩ := hh
    simp only [List.map_cons, ih, h1]

theorem forall₂_mem_right {s : List RawRow} {out : List Row}
    (h : List.Forall₂ convRel s out) {r' : Row} (hm : r' ∈ out) :
    ∃ r ∈ s, convRel r r' := by
  induction h with
  | nil => cases hm
  | cons hh ht ih =>
    rcases List.mem_cons.mp hm with rfl | hm'
    · exact ⟨_, List.mem_cons_self _ _, hh⟩
    · obtain ⟨r, hr, hc⟩ := ih hm'
      exact ⟨r, List.mem_cons_of_mem _ hr, hc⟩

/-! ### Invariants of the cleaned stage -/

theorem sorted_shows_sorted (l : List RawRow) :
    (sorted_shows l).Pairwise (fun a b => rawLe a b = true) :=
  List.sorted_insertionSort _ l

theorem cleaned_titles_nodup (rows : List RawRow) :
    (sorted_shows (removed_duplicates (clean_shows rows))).Pairwise
      (fun a b => a.title ≠ b.title) := by
  have h1 := dropDupAux_titles_nodup [] (clean_shows rows)
  have hperm :=
    List.perm_insertionSort (fun a b => rawLe a b = true)
      (removed_duplicates (clean_shows rows))
  exact (hperm.pairwise_iff (fun h he => h he.symm)).mpr h1

theorem mem_cleaned {rows : List RawRow} {r : RawRow}
    (h : r ∈ sorted_shows (removed_duplicates (clean_shows rows))) :
    r ∈ rows ∧ isNA r.episodes = false := by
  have h1 : r ∈ removed_duplicates (clean_shows rows) :=
    (List.mem_insertionSort _).mp h
  have h2 : r ∈ clean_shows rows := (dropDupAux_sublist [] _).subset h1
  obtain ⟨hm, hp⟩ := List.mem_filter.mp h2
  exact ⟨hm, by simpa using hp⟩

/-- The lexicographic order on the `(year, title)` sort key. -/
def keyLe (p q : Int × String) : Prop :=
  p.1 < q.1 ∨ (p.1 = q.1 ∧ p.2 ≤ q.2)

theorem out_titles_nodup {rows : List RawRow} {out : List Row}
    (h : cleanPipeline rows = .ok out) :
    out.Pairwise (fun a b => a.title ≠ b.title) := by
  have hf := convert_ok_forall₂ h
  have ht := forall₂_titles hf
  have hs := cleaned_titles_nodup rows
  have hmapped : (out.map (·.title)).Pairwise (· ≠ ·) := by
    rw [ht]
    exact List.pairwise_map.mpr hs
  exact List.pairwise_map.mp hmapped

theorem out_sorted {rows : List RawRow} {out : List Row}
    (h : cleanPipeline rows = .ok out) :
    out.Pairwise (fun a b => a.year < b.year ∨ (a.year = b.year ∧ a.title ≤ b.title)) := by
  have hf := convert_ok_forall₂ h
  have hk := forall₂_keys hf
  have hs := sorted_shows_sorted (removed_duplicates (clean_shows rows))
  have hs' : ((sorted_shows (removed_duplicates (clean_shows rows))).map
      (fun r => (r.year, r.title))).Pairwise keyLe := by
    apply List.pairwise_map.mpr
    exact hs.imp (fun hab => (rawLe_iff _ _).mp hab)
  rw [← hk] at hs'
  exact (List.pairwise_map.mp hs').imp (fun hab => hab)

/-! ### The conversion is the identity on already-integral episode counts -/

theorem cellToInt_intCast (n : Int) : cellToInt (.num (n : ℚ)) = .ok n := by
  simp [cellToInt, Rat.num_intCast, Rat.den_intCast, Int.tdiv_one]

theorem convert_rowToRaw (out : List Row) :
    convertEpisodes (out.map rowToRaw) = .ok out := by
  induction out with
  | nil => rfl
  | cons r rs ih =>
    simp only [List.map_cons, convertEpisodes, rowToRaw, cellToInt_intCast, ih]

/-! ### Counting helpers for the per-year summary -/

theorem sum_map_add {α : Type} (f g : α → Nat) (ys : List α) :
    (ys.map (fun y => f y + g y)).sum = (ys.map f).sum + (ys.map g).sum := by
  induction ys with
  | nil => rfl
  | cons y ys ih =>
    simp only [List.map_cons, List.sum_cons, ih]
    omega

theorem sum_indicator_eq_zero {x : Int} {ys : List Int} (hx : x ∉ ys) :
    (ys.map (fun y => if x == y then 1 else 0)).sum = 0 := by
  induction ys with
  | nil => rfl
  | cons y ys ih =>
    have hxy : x ≠ y := fun he => hx (he ▸ List.mem_cons_self _ _)
    have hx' : x ∉ ys := fun hc => hx (List.mem_cons_of_mem _ hc)
    simp only [List.map_cons, List.sum_cons, ih hx']
    simp [hxy]

theorem sum_indicator_eq_one {x : Int} {ys : List Int} (hnd : ys.Nodup) (hx : x ∈ ys) :
    (ys.map (fun y => if x == y then 1 else 0)).sum = 1 := by
  induction ys with
  | nil => cases hx
  | cons y ys ih =>
    have hny : y ∉ ys := (List.nodup_cons.mp hnd).1
    have hnd' : ys.Nodup := (List.nodup_cons.mp hnd).2
    rcases List.mem_cons.mp hx with rfl | hx'
    · simp only [List.map_cons, List.sum_cons]
      rw [sum_indicator_eq_zero hny]
      simp
    · have hxy : x ≠ y := fun he => hny (he ▸ hx')
      simp only [List.map_cons, List.sum_cons, ih hnd' hx']
      simp [hxy]

theorem countP_sum (l : List Row) : ∀ (ys : List Int), ys.Nodup →
    (∀ r ∈ l, r.year ∈ ys) →
    (ys.map (fun y => l.countP (fun r => r.year == y))).sum = l.length := by
  induction l with
  | nil =>
    intro ys _ _
    simp [List.countP_nil]
  | cons a l ih =>
    intro ys hnd hall
    have h1 : ∀ r ∈ l, r.year ∈ ys := fun r hr => hall r (List.mem_cons_of_mem _ hr)
    simp only [List.countP_cons]
    rw [sum_map_add, ih ys hnd h1,
      sum_indicator_eq_one hnd (hall a (List.mem_cons_self _ _))]
    simp

theorem num_sum_eq_length (out : List Row) :
    ((num out).map Prod.snd).sum = out.length := by
  have hrw : (num out).map Prod.snd =
      (((out.map (·.year)).dedup).insertionSort (· ≤ ·)).map
        (fun y => out.countP (fun r => r.year == y)) := by
    unfold num
    rw [List.map_map]
    rfl
  rw [hrw]
  apply countP_sum
  · exact (List.perm_insertionSort _ _).nodup_iff.mpr (List.nodup_dedup _)
  · intro r hr
    rw [List.mem_insertionSort, List.mem_dedup, List.mem_map]
    exact ⟨r, hr, rfl⟩

theorem num_chain' (out : List Row) : (num out).Chain' (fun p q => p.1 < q.1) := by
  unfold num
  rw [List.chain'_map]
  apply List.Pairwise.chain'
  have hs : (((out.map (·.year)).dedup).insertionSort (· ≤ ·)).Pairwise (· ≤ ·) :=
    List.sorted_insertionSort _ _
  have hn : (((out.map (·.year)).dedup).insertionSort (· ≤ ·)).Nodup :=
    (List.perm_insertionSort _ _).nodup_iff.mpr (List.nodup_dedup _)
  exact (hs.and hn).imp (fun h => lt_of_le_of_ne h.1 h.2)

theorem mem_num_years_iff (out : List Row) (y : Int) :
    y ∈ (num out).map Prod.fst ↔ y ∈ out.map (·.year) := by
  simp [num, List.mem_insertionSort, List.mem_dedup]

theorem titles_nodup_length {out : List Row}
    (h : out.Pairwise fun a b => a.title ≠ b.title) :
    total_shows_overall out = out.length := by
  unfold total_shows_overall
  rw [List.dedup_eq_self.mpr (List.pairwise_map.mpr h), List.length_map]

/-- The cleaned rows of the spec's worked example. -/
def exOutput : List Row :=
  [⟨"Show C", 2019, 5⟩, ⟨"Show A", 2020, 10⟩]

/-! ### The claims -/

/-- C1: for every input dataset, after the cleaning pipeline (dropna on
episodes, drop_duplicates on title, sort, reindex, integer conversion) the
output contains no two records sharing the same title, and no record that
survives to the conversion step has a missing `episodes` value. -/
theorem claim_c1 (rows : List RawRow) (out : List Row)
    (h : cleanPipeline rows = .ok out) :
    out.Pairwise (fun a b => a.title ≠ b.title) ∧
      ∀ r ∈ sorted_shows (removed_duplicates (clean_shows rows)),
        r.episodes ≠ EpCell.na := by
  refine ⟨out_titles_nodup h, ?_⟩
  intro r hr he
  have hna := (mem_cleaned hr).2
  rw [he] at hna
  simp [isNA] at hna

theorem claim_c1_witness :
    cleanPipeline exInput = .ok exOutput ∧
      (exOutput.Pairwise (fun a b => a.title ≠ b.title) ∧
        ∀ r ∈ sorted_shows (removed_duplicates (clean_shows exInput)),
          r.episodes ≠ EpCell.na) :=
  ⟨by rfl, claim_c1 exInput exOutput (by rfl)⟩

/-- C2: for every input dataset, the records of the cleaned output are
sorted by `(year, title)` in ascending lexicographic order: for any two
consecutive output records, either the year strictly increases, or the
year is equal and the title does not decrease. -/
theorem claim_c2 (rows : List RawRow) (out : List Row)
    (h : cleanPipeline rows = .ok out) :
    out.Chain' (fun a b => a.year < b.year ∨ (a.year = b.year ∧ a.title ≤ b.title)) :=
  (out_sorted h).chain'

theorem claim_c2_witness :
    cleanPipeline exInput = .ok exOutput ∧
      exOutput.Chain'
        (fun a b => a.year < b.year ∨ (a.year = b.year ∧ a.title ≤ b.title)) :=
  ⟨by rfl, claim_c2 exInput exOutput (by rfl)⟩

/-- C3: for every input dataset, `total_shows` equals the number of records
of the cleaned output, and `total_episodes` equals the sum of the
`episodes` values of the cleaned output records. -/
theorem claim_c3 (rows : List RawRow) (out : List Row)
    (h : cleanPipeline rows = .ok out) :
    total_shows_overall out = out.length ∧
      total_episodes_overall out = (out.map (·.episodes)).sum :=
  ⟨titles_nodup_length (out_titles_nodup h), rfl⟩

theorem claim_c3_witness :
    cleanPipeline exInput = .ok exOutput ∧
      (total_shows_overall exOutput = exOutput.length ∧
        total_episodes_overall exOutput = (exOutput.map (·.episodes)).sum) :=
  ⟨by rfl, claim_c3 exInput exOutput (by rfl)⟩

/-- C4: on the input rows
`[("Show A",2020,10), ("Show B",2019,None), ("Show A",2020,10), ("Show C",2019,5.0)]`
the pipeline produces the cleaned rows
`[("Show C",2019,5), ("Show A",2020,10)]`, `total_shows = 2`,
`total_episodes = 15`, and `yearly_counts = [(2019,1), (2020,1)]`. -/
theorem claim_c4 :
    cleanPipeline exInput = .ok exOutput ∧
      total_shows_overall exOutput = 2 ∧
      total_episodes_overall exOutput = 15 ∧
      num exOutput = [(2019, 1), (2020, 1)] :=
  ⟨by rfl, by rfl, by rfl, by rfl⟩

/-- C5: for every input dataset, the counts of the per-year summary
`yearly_counts` sum to `total_shows`; the summary has one entry per
distinct year of the cleaned dataset (its years are strictly increasing,
and a year appears in it exactly when some cleaned record has that year). -/
theorem claim_c5 (rows : List RawRow) (out : List Row)
    (h : cleanPipeline rows = .ok out) :
    ((num out).map Prod.snd).sum = total_shows_overall out ∧
      (num out).Chain' (fun p q => p.1 < q.1) ∧
      ∀ y : Int, y ∈ (num out).map Prod.fst ↔ y ∈ out.map (·.year) := by
  refine ⟨?_, num_chain' out, fun y => mem_num_years_iff out y⟩
  rw [num_sum_eq_length, titles_nodup_length (out_titles_nodup h)]

theorem claim_c5_witness :
    cleanPipeline exInput = .ok exOutput ∧
      (((num exOutput).map Prod.snd).sum = total_shows_overall exOutput ∧
        (num exOutput).Chain' (fun p q => p.1 < q.1) ∧
        ∀ y : Int, y ∈ (num exOutput).map Prod.fst ↔ y ∈ exOutput.map (·.year)) :=
  ⟨by rfl, claim_c5 exInput exOutput (by rfl)⟩

/-- C6: the cleaning pipeline is idempotent — applying the pipeline to its
own output (re-read as raw rows) yields exactly that same output, with no
rows removed and the record order unchanged. -/
theorem claim_c6 (rows : List RawRow) (out : List Row)
    (h : cleanPipeline rows = .ok out) :
    cleanPipeline (out.map rowToRaw) = .ok out := by
  have htitles := out_titles_nodup h
  have h1 : clean_shows (out.map rowToRaw) = out.map rowToRaw := by
    apply List.filter_eq_self.mpr
    intro r hr
    rw [List.mem_map] at hr
    obtain ⟨r', _, rfl⟩ := hr
    rfl
  have h2 : removed_duplicates (out.map rowToRaw) = out.map rowToRaw := by
    apply dropDupAux_eq_self
    · exact List.pairwise_map.mpr (htitles.imp (fun hab => hab))
    · intro r _
      exact List.not_mem_nil _
  have hsorted : (out.map rowToRaw).Pairwise (fun a b => rawLe a b = true) := by
    apply List.pairwise_map.mpr
    refine (out_sorted h).imp ?_
    intro a b hab
    rw [rawLe_iff]
    exact hab
  have h3 : sorted_shows (out.map rowToRaw) = out.map rowToRaw := by
    unfold sorted_shows
    exact List.Sorted.insertionSort_eq hsorted
  unfold cleanPipeline
  rw [h1, h2, h3]
  exact convert_rowToRaw out

theorem claim_c6_witness :
    cleanPipeline exInput = .ok exOutput ∧
      cleanPipeline (exOutput.map rowToRaw) = .ok exOutput :=
  ⟨by rfl, claim_c6 exInput exOutput (by rfl)⟩

/-- The input refuting C7 as stated: the first record bearing the title
`"A"` has a missing `episodes` value, so dropna removes it before
duplicates are dropped, and the retained record for `"A"` is the second
one, not the first in original input order. -/
def c7Input : List RawRow :=
  [⟨"A", 2000, .na⟩, ⟨"A", 2001, .num 3⟩]

/-- C7, as stated, is false on the code: it is not the case that for every
input the record retained for a title of the cleaned output is the first
record bearing that title in the original input order.  On `c7Input` the
first input record with title `"A"` has year 2000, but the retained record
has year 2001. -/
theorem claim_c7_counterexample :
    ¬ (∀ (rows : List RawRow) (out : List Row), cleanPipeline rows = .ok out →
        ∀ r' ∈ out, ∃ raw,
          rows.find? (fun x => x.title == r'.title) = some raw ∧
            raw.title = r'.title ∧ raw.year = r'.year ∧
            cellToInt raw.episodes = .ok r'.episodes) := by
  intro hclaim
  obtain ⟨raw, hfind, -, hyear, -⟩ :=
    hclaim c7Input [⟨"A", 2001, 3⟩] (by rfl) ⟨"A", 2001, 3⟩
      (List.mem_singleton.mpr rfl)
  have hf : c7Input.find? (fun x => x.title == (⟨"A", 2001, (3 : Int)⟩ : Row).title) =
      some ⟨"A", 2000, .na⟩ := by rfl
  rw [hf] at hfind
  injection hfind with hraw
  rw [← hraw] at hyear
  simp at hyear

/-- C7 amended: for every title present in the cleaned output, the record
retained for that title is the first record bearing that title, in
original input order, among the records that survive the dropna step
(records whose `episodes` value is missing are removed before duplicates
are dropped, so they cannot be the retained occurrence). -/
theorem claim_c7_amended (rows : List RawRow) (out : List Row)
    (h : cleanPipeline rows = .ok out) :
    ∀ r' ∈ out, ∃ raw,
      (clean_shows rows).find? (fun x => x.title == r'.title) = some raw ∧
        raw.title = r'.title ∧ raw.year = r'.year ∧
        cellToInt raw.episodes = .ok r'.episodes := by
  intro r' hr'
  obtain ⟨r, hrs, hconv⟩ := forall₂_mem_right (convert_ok_forall₂ h) hr'
  obtain ⟨ht, hy, hc⟩ := hconv
  have hmem : r ∈ removed_duplicates (clean_shows rows) :=
    (List.mem_insertionSort _).mp hrs
  obtain ⟨-, hfind⟩ := mem_dropDupAux [] _ hmem
  refine ⟨r, ?_, ht.symm, hy.symm, hc⟩
  rw [ht]
  exact hfind

theorem claim_c7_witness :
    cleanPipeline exInput = .ok exOutput ∧
      ∀ r' ∈ exOutput, ∃ raw,
        (clean_shows exInput).find? (fun x => x.title == r'.title) = some raw ∧
          raw.title = r'.title ∧ raw.year = r'.year ∧
          cellToInt raw.episodes = .ok r'.episodes :=
  ⟨by rfl, claim_c7_amended exInput exOutput (by rfl)⟩

/-- C8: what the code actually does on an empty input (header only).  The
cleaned dataset is empty and the aggregates are computed without raising
(`total_shows = 0`, `total_episodes = 0`, `yearly_counts = []`), but the
renderer does NOT detect the empty case: the unguarded
`np.arange(min(years), max(years)+1, 5)` at line 118 is reached with an
empty year list and `min` raises `ValueError`. -/
theorem claim_c8_code_behavior :
    cleanPipeline [] = .ok [] ∧
      total_shows_overall [] = 0 ∧
      total_episodes_overall [] = 0 ∧
      num [] = [] ∧
      xticks (years []) = .error "min() arg is an empty sequence" :=
  ⟨rfl, rfl, rfl, rfl, rfl⟩

/-- C9: if a non-numeric `episodes` value (a string that does not parse as
an integer literal) survives the cleaning steps and reaches the
integer-conversion step, the pipeline raises a fatal type-conversion
error surfaced to the caller; it never returns any cleaned output, so in
particular the value is not silently coerced to zero. -/
theorem claim_c9 (rows : List RawRow) (r : RawRow) (t : String)
    (hmem : r ∈ sorted_shows (removed_duplicates (clean_shows rows)))
    (ht : r.episodes = .str t) (hbad : parseInt t = none) :
    (∃ e, cleanPipeline rows = .error e) ∧ ∀ out, cleanPipeline rows ≠ .ok out := by
  have herr : cellToInt r.episodes =
      .error ("invalid literal for int() with base 10: " ++ t) := by
    rw [ht]
    simp [cellToInt, hbad]
  obtain ⟨e', he'⟩ := convert_error_of_mem hmem herr
  refine ⟨⟨e', he'⟩, ?_⟩
  intro out hok
  unfold cleanPipeline at hok
  rw [he'] at hok
  exact Except.noConfusion hok

theorem claim_c9_witness :
    (∃ e, cleanPipeline [⟨"A", 2000, .str "abc"⟩] = .error e) ∧
      ∀ out, cleanPipeline [⟨"A", 2000, .str "abc"⟩] ≠ .ok out :=
  claim_c9 [⟨"A", 2000, .str "abc"⟩] ⟨"A", 2000, .str "abc"⟩ "abc"
    (by decide) rfl rfl

/-- C10 (implicit frame property): cleaning never fabricates or edits
identifying data — every record of the cleaned output has `title` and
`year` equal to those of some record of the input dataset, and its
`episodes` value is the integer conversion of that input record's
`episodes` value. -/
theorem claim_c10 (rows : List RawRow) (out : List Row)
    (h : cleanPipeline rows = .ok out) :
    ∀ r' ∈ out, ∃ r ∈ rows,
      r'.title = r.title ∧ r'.year = r.year ∧
        cellToInt r.episodes = .ok r'.episodes := by
  intro r' hr'
  obtain ⟨r, hrs, hconv⟩ := forall₂_mem_right (convert_ok_forall₂ h) hr'
  obtain ⟨ht, hy, hc⟩ := hconv
  exact ⟨r, (mem_cleaned hrs).1, ht, hy, hc⟩

theorem claim_c10_witness :
    cleanPipeline exInput = .ok exOutput ∧
      ∀ r' ∈ exOutput, ∃ r ∈ exInput,
        r'.title = r.title ∧ r'.year = r.year ∧
          cellToInt r.episodes = .ok r'.episodes :=
  ⟨by rfl, claim_c10 exInput exOutput (by rfl)⟩

end ShowCleaning
